import Mathlib

/-!
Verification of the PDF cache manager (`src/sciproxy/cache.py`, class `PdfCache`)
against its natural-language specification.

Shallow embedding conventions:
- Filenames and keys are lists of characters (`Name`).
- File contents are lists of bytes (`Bytes`); a file's size is the length of
  its content, matching `os.stat(...).st_size` for a fully synced file.
- The flat cache directory is an association list from filenames to metadata
  (`FS`); `aiofiles.os.listdir` enumerates it in list order.
- Timestamps (`st_atime`, `time.time()`) are integers.
- The float parameter `max_size_mbytes` is embedded as a rational number; the
  Python truncation `int(max_size_mbytes * BYTES_PER_MBYTE)` coincides with
  `Rat.floor` on the non-negative values admitted by the guarding branch.
- Fallible OS primitives are driven by an explicit fault environment
  (`Faults`); the `try`/`except` blocks of the source become the corresponding
  case splits, so a caught exception yields the handler's value.
- `pikepdf.open` followed by `pdf.save(..., linearize=True)` is abstracted as
  a parameter `normalize : Bytes → Option Bytes` (`none` models a
  `pikepdf.PdfError` for a malformed payload).
-/

namespace PdfCache

abbrev Name := List Char

abbrev Bytes := List Nat

/-- Metadata of one file in the cache directory: content (whose length is the
file's size in bytes), last-access time and last-modification time. -/
structure FileMeta where
  content : Bytes
  atime : Int
  mtime : Int
deriving DecidableEq, Repr

/-- Size of a file, as reported by `os.stat(...).st_size`. -/
def FileMeta.size (m : FileMeta) : Nat := m.content.length

/-- State of the flat cache directory: an association list from filenames to
file metadata, in directory-listing order. -/
structure FS where
  files : List (Name × FileMeta)
deriving DecidableEq, Repr

/-- Association-list lookup of a filename. -/
def lookup_meta : List (Name × FileMeta) → Name → Option FileMeta
  | [], _ => none
  | e :: rest, n => if e.1 = n then some e.2 else lookup_meta rest n

/-- Look a filename up in the directory. -/
def FS.lookup (fs : FS) (n : Name) : Option FileMeta := lookup_meta fs.files n

/-- Delete a filename from the directory (`os.remove`). -/
def FS.erase (fs : FS) (n : Name) : FS :=
  ⟨fs.files.filter (fun e => decide (e.1 ≠ n))⟩

/-- Replace the metadata stored for a present filename (`os.utime`). -/
def FS.update (fs : FS) (n : Name) (m : FileMeta) : FS :=
  ⟨fs.files.map (fun e => if e.1 = n then (n, m) else e)⟩

/-- Create or overwrite a file (a completed write to path `n`). -/
def FS.write (fs : FS) (n : Name) (m : FileMeta) : FS :=
  if (fs.lookup n).isSome then fs.update n m else ⟨fs.files ++ [(n, m)]⟩

-- Constants of `PdfCache` (`cache.py`, lines 48-54).

def SANITIZE_TARGET : Char := '/'

def SANITIZE_REPLACEMENT : Char := '@'

def CACHE_SUFFIX : Name := ".pdf".toList

def TEMP_SUFFIX : Name := ".part".toList

def SECONDS_PER_DAY : Int := 24 * 60 * 60

def BYTES_PER_MBYTE : Int := 1024 * 1024

-- Key handling (`cache.py`, lines 75-93).

/-- Replace '/' with '@' in the provided key (`PdfCache._sanitize_key`); the
degenerate-name check only logs a warning and does not change the result. -/
def sanitize_key (key : Name) : Name :=
  key.map (fun c => if c = SANITIZE_TARGET then SANITIZE_REPLACEMENT else c)

/-- Convert a sanitized filename back to the original key, replacing '@' with
'/' (`PdfCache._unsanitize_filename`). -/
def unsanitize_filename (filename : Name) : Name :=
  filename.map (fun c => if c = SANITIZE_REPLACEMENT then SANITIZE_TARGET else c)

/-- Generate the cache file name for a raw key (`PdfCache._get_cache_path`);
the directory prefix is implicit since the directory is modelled directly. -/
def get_cache_path (raw_key : Name) : Name :=
  sanitize_key raw_key ++ CACHE_SUFFIX

-- Basic association-list lemmas.

theorem lookup_meta_nil (n : Name) : lookup_meta [] n = none := rfl

theorem lookup_meta_eq_none (l : List (Name × FileMeta)) (n : Name)
    (h : n ∉ l.map Prod.fst) : lookup_meta l n = none := by
  induction l with
  | nil => rfl
  | cons e rest ih =>
    simp only [List.map_cons, List.mem_cons, not_or] at h
    rw [lookup_meta, if_neg (fun he => h.1 he.symm), ih h.2]

theorem lookup_meta_isSome_iff (l : List (Name × FileMeta)) (n : Name) :
    (lookup_meta l n).isSome = true ↔ n ∈ l.map Prod.fst := by
  induction l with
  | nil => simp [lookup_meta_nil]
  | cons e rest ih =>
    by_cases he : e.1 = n
    · rw [lookup_meta, if_pos he]
      refine ⟨fun _ => ?_, fun _ => rfl⟩
      rw [List.map_cons]
      exact List.mem_cons.mpr (Or.inl he.symm)
    · rw [lookup_meta, if_neg he]
      simp only [List.map_cons, List.mem_cons, ih]
      constructor
      · exact Or.inr
      · rintro (h | h)
        · exact absurd h.symm he
        · exact h

theorem lookup_meta_mem (l : List (Name × FileMeta)) (n : Name) (m : FileMeta)
    (h : lookup_meta l n = some m) : (n, m) ∈ l := by
  induction l with
  | nil => exact absurd h (by simp [lookup_meta_nil])
  | cons e rest ih =>
    by_cases he : e.1 = n
    · rw [lookup_meta, if_pos he] at h
      apply List.mem_cons.mpr
      left
      obtain ⟨e1, e2⟩ := e
      cases he
      cases h
      rfl
    · rw [lookup_meta, if_neg he] at h
      exact List.mem_cons_of_mem _ (ih h)

theorem mem_lookup_meta (l : List (Name × FileMeta)) (n : Name) (m : FileMeta)
    (hnd : (l.map Prod.fst).Nodup) (h : (n, m) ∈ l) : lookup_meta l n = some m := by
  induction l with
  | nil => exact absurd h (List.not_mem_nil _)
  | cons e rest ih =>
    simp only [List.map_cons, List.nodup_cons] at hnd
    rcases List.mem_cons.mp h with h | h
    · subst h
      simp [lookup_meta]
    · have hne : e.1 ≠ n := by
        intro he
        exact hnd.1 (he ▸ (List.mem_map.mpr ⟨(n, m), h, rfl⟩))
      rw [lookup_meta, if_neg hne]
      exact ih hnd.2 h

theorem lookup_meta_filter_ne (l : List (Name × FileMeta)) (n n' : Name) (h : n' ≠ n) :
    lookup_meta (l.filter (fun e => decide (e.1 ≠ n))) n' = lookup_meta l n' := by
  induction l with
  | nil => rfl
  | cons e rest ih =>
    by_cases he : e.1 = n
    · rw [List.filter_cons, if_neg (by simp [he]), ih, lookup_meta,
        if_neg (fun h2 => h (by rw [← h2, he]))]
    · rw [List.filter_cons, if_pos (by simp [he])]
      by_cases h2 : e.1 = n'
      · rw [lookup_meta, if_pos h2, lookup_meta, if_pos h2]
      · rw [lookup_meta, if_neg h2, lookup_meta, if_neg h2, ih]

theorem lookup_meta_update_self (l : List (Name × FileMeta)) (n : Name) (m m0 : FileMeta)
    (h : lookup_meta l n = some m0) :
    lookup_meta (l.map (fun e => if e.1 = n then (n, m) else e)) n = some m := by
  induction l with
  | nil => exact absurd h (by simp [lookup_meta_nil])
  | cons e rest ih =>
    by_cases he : e.1 = n
    · rw [List.map_cons, if_pos he, lookup_meta, if_pos rfl]
    · rw [lookup_meta, if_neg he] at h
      rw [List.map_cons, if_neg he, lookup_meta, if_neg he]
      exact ih h

theorem lookup_meta_update_ne (l : List (Name × FileMeta)) (n n' : Name) (m : FileMeta)
    (h : n' ≠ n) :
    lookup_meta (l.map (fun e => if e.1 = n then (n, m) else e)) n' = lookup_meta l n' := by
  induction l with
  | nil => rfl
  | cons e rest ih =>
    by_cases he : e.1 = n
    · rw [List.map_cons, if_pos he, lookup_meta, if_neg (fun h2 : n = n' => h h2.symm),
        lookup_meta, if_neg (fun h2 => h (by rw [← h2, he])), ih]
    · rw [List.map_cons, if_neg he]
      by_cases h2 : e.1 = n'
      · rw [lookup_meta, if_pos h2, lookup_meta, if_pos h2]
      · rw [lookup_meta, if_neg h2, lookup_meta, if_neg h2, ih]

theorem lookup_meta_append_self (l : List (Name × FileMeta)) (n : Name) (m : FileMeta)
    (h : n ∉ l.map Prod.fst) : lookup_meta (l ++ [(n, m)]) n = some m := by
  induction l with
  | nil => simp [lookup_meta]
  | cons e rest ih =>
    simp only [List.map_cons, List.mem_cons, not_or] at h
    rw [List.cons_append, lookup_meta, if_neg (fun he => h.1 he.symm), ih h.2]

theorem lookup_meta_append_ne (l : List (Name × FileMeta)) (n n' : Name) (m : FileMeta)
    (h : n' ≠ n) : lookup_meta (l ++ [(n, m)]) n' = lookup_meta l n' := by
  induction l with
  | nil => simp [lookup_meta, if_neg (fun he : n = n' => h he.symm)]
  | cons e rest ih =>
    rw [List.cons_append, lookup_meta, lookup_meta]
    by_cases h2 : e.1 = n'
    · rw [if_pos h2, if_pos h2]
    · rw [if_neg h2, if_neg h2, ih]

theorem FS.lookup_erase_self (fs : FS) (n : Name) : (fs.erase n).lookup n = none := by
  apply lookup_meta_eq_none
  intro hmem
  rcases List.mem_map.mp hmem with ⟨e, he, hfst⟩
  rcases List.mem_filter.mp he with ⟨_, hne⟩
  exact (of_decide_eq_true hne) hfst

theorem FS.lookup_erase_ne (fs : FS) (n n' : Name) (h : n' ≠ n) :
    (fs.erase n).lookup n' = fs.lookup n' :=
  lookup_meta_filter_ne fs.files n n' h

theorem FS.lookup_update_self (fs : FS) (n : Name) (m m0 : FileMeta)
    (h : fs.lookup n = some m0) : (fs.update n m).lookup n = some m :=
  lookup_meta_update_self fs.files n m m0 h

theorem FS.lookup_update_ne (fs : FS) (n n' : Name) (m : FileMeta) (h : n' ≠ n) :
    (fs.update n m).lookup n' = fs.lookup n' :=
  lookup_meta_update_ne fs.files n n' m h

theorem FS.lookup_write_self (fs : FS) (n : Name) (m : FileMeta) :
    (fs.write n m).lookup n = some m := by
  unfold FS.write
  by_cases h : (fs.lookup n).isSome
  · rw [if_pos h]
    rcases Option.isSome_iff_exists.mp h with ⟨m0, hm0⟩
    exact fs.lookup_update_self n m m0 hm0
  · rw [if_neg h]
    apply lookup_meta_append_self
    intro hmem
    exact h ((lookup_meta_isSome_iff fs.files n).mpr hmem)

theorem FS.lookup_write_ne (fs : FS) (n n' : Name) (m : FileMeta) (h : n' ≠ n) :
    (fs.write n m).lookup n' = fs.lookup n' := by
  unfold FS.write
  by_cases hs : (fs.lookup n).isSome
  · rw [if_pos hs]
    exact fs.lookup_update_ne n n' m h
  · rw [if_neg hs]
    exact lookup_meta_append_ne fs.files n n' m h

-- Key-codec facts.

/-- Claim C9: for every key containing no at-sign, `unsanitize(sanitize(k)) = k`:
sanitize replaces every '/' by '@', unsanitize replaces every '@' by '/'. -/
theorem c9_roundtrip (k : Name) (h : SANITIZE_REPLACEMENT ∉ k) :
    unsanitize_filename (sanitize_key k) = k := by
  unfold unsanitize_filename sanitize_key
  rw [List.map_map]
  have : ∀ c ∈ k,
      ((fun c => if c = SANITIZE_REPLACEMENT then SANITIZE_TARGET else c) ∘
        (fun c => if c = SANITIZE_TARGET then SANITIZE_REPLACEMENT else c)) c = id c := by
    intro c hc
    have hc' : c ≠ SANITIZE_REPLACEMENT := fun he => h (he ▸ hc)
    by_cases h2 : c = SANITIZE_TARGET
    · simp [Function.comp, h2, SANITIZE_TARGET, SANITIZE_REPLACEMENT]
    · simp [Function.comp, h2, hc']
  rw [List.map_congr_left this, List.map_id]

/-- Witness for C9 at the concrete key "10.1000/demo". -/
theorem c9_roundtrip_witness :
    SANITIZE_REPLACEMENT ∉ "10.1000/demo".toList ∧
      unsanitize_filename (sanitize_key "10.1000/demo".toList) = "10.1000/demo".toList :=
  ⟨by decide, c9_roundtrip "10.1000/demo".toList (by decide)⟩

-- Fault environment: which fallible OS primitives raise during an operation.

/-- Fault environment for one run: each flag makes the corresponding OS call
raise (an `OSError` unless noted); the source catches these per its
`try`/`except` structure. -/
structure Faults where
  mkdirFails : Bool
  existsCheckFails : Bool
  utimeFails : Bool
  readFails : Bool
  listdirFails : Bool
  statFails : Name → Bool
  removeFails : Name → Bool
  removeTempFails : Bool

/-- Fault environment in which every OS call succeeds. -/
def noFaults : Faults :=
  ⟨false, false, false, false, false, fun _ => false, fun _ => false, false⟩

-- Directory scanner (`PdfCache._get_cache_files_info`, lines 265-311).

/-- One record of the scan: `(access_time, size, full_path, original_key)`. -/
structure CacheFileInfo where
  access_time : Int
  size : Nat
  path : Name
  key : Name
deriving DecidableEq, Repr

/-- Filename filter of the scan: ends with the cache suffix and does not end
with the temporary suffix (`cache.py`, lines 280-282). -/
def valid_cache_name (n : Name) : Prop :=
  CACHE_SUFFIX.isSuffixOf n = true ∧ TEMP_SUFFIX.isSuffixOf n = false

instance (n : Name) : Decidable (valid_cache_name n) := by
  unfold valid_cache_name
  infer_instance

/-- Loop body of `_get_cache_files_info`: keep a file when its name passes the
filter, `os.stat` does not raise, and its size is positive; accumulate the
info record and the running total size. -/
def scan_files (sf : Name → Bool) : List (Name × FileMeta) → List CacheFileInfo × Int
  | [] => ([], 0)
  | e :: rest =>
    let r := scan_files sf rest
    if valid_cache_name e.1 ∧ sf e.1 = false ∧ 0 < e.2.content.length then
      (⟨e.2.atime, e.2.content.length, e.1,
          unsanitize_filename (e.1.take (e.1.length - CACHE_SUFFIX.length))⟩ :: r.1,
        (e.2.content.length : Int) + r.2)
    else r

/-- Scan the cache directory (`PdfCache._get_cache_files_info`): a listing
failure is caught and yields the empty accumulation. -/
def get_cache_files_info (f : Faults) (fs : FS) : List CacheFileInfo × Int :=
  if f.listdirFails then ([], 0) else scan_files f.statFails fs.files

/-- Return the original keys of the valid cache files
(`PdfCache.list_cached_keys`). -/
def list_cached_keys (f : Faults) (fs : FS) : List Name :=
  ((get_cache_files_info f fs).1).map (fun i => i.key)

-- Core cache operations (`cache.py`, lines 96-261).

/-- Check whether a cached file exists (`PdfCache.exists`); OS errors are
caught and reported as `false`. -/
def cache_exists (f : Faults) (fs : FS) (raw_key : Name) : Bool :=
  if f.existsCheckFails then false
  else (fs.lookup (get_cache_path raw_key)).isSome

/-- Retrieve the path of a cached file and touch it (`PdfCache.get_path`):
returns the path and the possibly-touched directory state; a failing touch is
caught and still yields the hit, a failing existence check yields a miss. -/
def get_path (f : Faults) (fs : FS) (raw_key : Name) (now : Int) : Option Name × FS :=
  if f.existsCheckFails then (none, fs)
  else
    match fs.lookup (get_cache_path raw_key) with
    | none => (none, fs)
    | some m =>
      if f.utimeFails then (some (get_cache_path raw_key), fs)
      else (some (get_cache_path raw_key),
        fs.update (get_cache_path raw_key) ⟨m.content, now, now⟩)

/-- Retrieve the content of a cached file (`PdfCache.get_data`): goes through
`get_path`, then reads the file; a read failure is caught and yields a miss. -/
def get_data (f : Faults) (fs : FS) (raw_key : Name) (now : Int) : Option Bytes × FS :=
  match get_path f fs raw_key now with
  | (none, fs') => (none, fs')
  | (some p, fs') =>
    if f.readFails then (none, fs')
    else
      match fs'.lookup p with
      | none => (none, fs')
      | some m => (some m.content, fs')

-- Writing (`PdfCache._save_pdf_sync` and `PdfCache.put`, lines 196-261).

/-- Which step of `_save_pdf_sync` fails, if any: `makedirs`, `pikepdf.open`,
`pdf.save` (leaving some partially written bytes in the temp file), or
`os.rename`. -/
inductive SaveOutcome where
  | success
  | makedirsFail
  | openFail
  | saveFail (written : Bytes)
  | renameFail
deriving DecidableEq, Repr

/-- Exception-handler cleanup of `_save_pdf_sync`: remove the temp file if it
exists; a failure of the removal itself is caught (best effort). -/
def cleanup_temp (f : Faults) (fs : FS) (temp : Name) : FS :=
  if (fs.lookup temp).isSome then (if f.removeTempFails then fs else fs.erase temp) else fs

/-- Save PDF data through a temp file then rename (`PdfCache._save_pdf_sync`):
`normalize` abstracts `pikepdf.open` + `save(..., linearize=True)`; every
failure path runs the temp-file cleanup handler and returns (the caller sees
no exception). -/
def save_pdf_sync (normalize : Bytes → Option Bytes) (f : Faults) (o : SaveOutcome)
    (fs : FS) (pdf_data : Bytes) (path : Name) (now : Int) : FS :=
  let temp := path ++ TEMP_SUFFIX
  match o with
  | SaveOutcome.makedirsFail => cleanup_temp f fs temp
  | SaveOutcome.openFail => cleanup_temp f fs temp
  | SaveOutcome.saveFail written => cleanup_temp f (fs.write temp ⟨written, now, now⟩) temp
  | SaveOutcome.renameFail =>
    match normalize pdf_data with
    | none => cleanup_temp f fs temp
    | some d => cleanup_temp f (fs.write temp ⟨d, now, now⟩) temp
  | SaveOutcome.success =>
    match normalize pdf_data with
    | none => cleanup_temp f fs temp
    | some d => ((fs.write temp ⟨d, now, now⟩).erase temp).write path ⟨d, now, now⟩

/-- Save PDF data for a raw key (`PdfCache.put`): runs `_save_pdf_sync` on the
derived path; its own handlers catch any executor error, so nothing
propagates. -/
def put (normalize : Bytes → Option Bytes) (f : Faults) (o : SaveOutcome)
    (fs : FS) (raw_key : Name) (pdf_data : Bytes) (now : Int) : FS :=
  save_pdf_sync normalize f o fs pdf_data (get_cache_path raw_key) now

/-- Construction failure marker (`OSError` from `os.makedirs`). -/
inductive OSErr where
  | osError
deriving DecidableEq, Repr

/-- Initialize the cache manager (`PdfCache.__init__`): the only operation
that re-raises, exactly when the cache root cannot be created. -/
def cache_init (f : Faults) : Except OSErr Unit :=
  if f.mkdirFails then Except.error OSErr.osError else Except.ok ()

-- Helper lemmas about paths and cleanup.

theorem scan_files_cons (sf : Name → Bool) (e : Name × FileMeta)
    (rest : List (Name × FileMeta)) :
    scan_files sf (e :: rest) =
      if valid_cache_name e.1 ∧ sf e.1 = false ∧ 0 < e.2.content.length then
        (⟨e.2.atime, e.2.content.length, e.1,
            unsanitize_filename (e.1.take (e.1.length - CACHE_SUFFIX.length))⟩ ::
            (scan_files sf rest).1,
          (e.2.content.length : Int) + (scan_files sf rest).2)
      else scan_files sf rest := rfl

theorem path_ne_temp (p : Name) : p ≠ p ++ TEMP_SUFFIX := by
  intro h
  have hlen := congrArg List.length h
  rw [List.length_append] at hlen
  simp [TEMP_SUFFIX] at hlen

theorem cleanup_temp_lookup_ne (f : Faults) (fs : FS) (temp x : Name) (h : x ≠ temp) :
    (cleanup_temp f fs temp).lookup x = fs.lookup x := by
  unfold cleanup_temp
  by_cases h1 : (fs.lookup temp).isSome
  · rw [if_pos h1]
    by_cases h2 : f.removeTempFails
    · rw [if_pos h2]
    · rw [if_neg h2]
      exact fs.lookup_erase_ne temp x h
  · rw [if_neg h1]

theorem cleanup_temp_lookup_self (f : Faults) (fs : FS) (temp : Name)
    (h : f.removeTempFails = false) : (cleanup_temp f fs temp).lookup temp = none := by
  unfold cleanup_temp
  by_cases h1 : (fs.lookup temp).isSome
  · rw [if_pos h1, if_neg (by rw [h]; exact Bool.false_ne_true)]
    exact fs.lookup_erase_self temp
  · rw [if_neg h1]
    exact Option.not_isSome_iff_eq_none.mp h1

/-- Claim C2: `put` leaves the final path holding either the previous artifact
or the fully normalized new artifact, never anything else; and on any failing
outcome (with the best-effort removal succeeding) the temp file is removed and
the final path is untouched. Totality of `put` models that no exception
reaches the caller. -/
theorem c2_put_atomic (normalize : Bytes → Option Bytes) (f : Faults) (o : SaveOutcome)
    (fs : FS) (raw_key : Name) (pdf_data : Bytes) (now : Int) :
    ((put normalize f o fs raw_key pdf_data now).lookup (get_cache_path raw_key) =
        fs.lookup (get_cache_path raw_key) ∨
      (∃ d, normalize pdf_data = some d ∧
        (put normalize f o fs raw_key pdf_data now).lookup (get_cache_path raw_key) =
          some ⟨d, now, now⟩)) ∧
    ((o ≠ SaveOutcome.success ∨ normalize pdf_data = none) → f.removeTempFails = false →
      (put normalize f o fs raw_key pdf_data now).lookup
          (get_cache_path raw_key ++ TEMP_SUFFIX) = none ∧
        (put normalize f o fs raw_key pdf_data now).lookup (get_cache_path raw_key) =
          fs.lookup (get_cache_path raw_key)) := by
  set p := get_cache_path raw_key with hp
  have hne : p ≠ p ++ TEMP_SUFFIX := path_ne_temp p
  unfold put save_pdf_sync
  cases o with
  | success =>
    cases hn : normalize pdf_data with
    | none =>
      refine ⟨Or.inl (cleanup_temp_lookup_ne f fs _ p hne), fun _ hr => ?_⟩
      exact ⟨cleanup_temp_lookup_self f fs _ hr, cleanup_temp_lookup_ne f fs _ p hne⟩
    | some d =>
      constructor
      · right
        exact ⟨d, rfl, FS.lookup_write_self _ p ⟨d, now, now⟩⟩
      · rintro (ho | ho) hr
        · exact absurd rfl ho
        · exact absurd ho (by simp)
  | makedirsFail =>
    refine ⟨Or.inl (cleanup_temp_lookup_ne f fs _ p hne), fun _ hr => ?_⟩
    exact ⟨cleanup_temp_lookup_self f fs _ hr, cleanup_temp_lookup_ne f fs _ p hne⟩
  | openFail =>
    refine ⟨Or.inl (cleanup_temp_lookup_ne f fs _ p hne), fun _ hr => ?_⟩
    exact ⟨cleanup_temp_lookup_self f fs _ hr, cleanup_temp_lookup_ne f fs _ p hne⟩
  | saveFail written =>
    have hbase : ∀ fsw : FS,
        (cleanup_temp f fsw (p ++ TEMP_SUFFIX)).lookup p = fsw.lookup p :=
      fun fsw => cleanup_temp_lookup_ne f fsw _ p hne
    refine ⟨Or.inl ?_, fun _ hr => ⟨cleanup_temp_lookup_self f _ _ hr, ?_⟩⟩
    · rw [hbase]
      exact FS.lookup_write_ne fs _ p ⟨written, now, now⟩ hne
    · rw [hbase]
      exact FS.lookup_write_ne fs _ p ⟨written, now, now⟩ hne
  | renameFail =>
    cases hn : normalize pdf_data with
    | none =>
      refine ⟨Or.inl (cleanup_temp_lookup_ne f fs _ p hne), fun _ hr => ?_⟩
      exact ⟨cleanup_temp_lookup_self f fs _ hr, cleanup_temp_lookup_ne f fs _ p hne⟩
    | some d =>
      have hbase : ∀ fsw : FS,
          (cleanup_temp f fsw (p ++ TEMP_SUFFIX)).lookup p = fsw.lookup p :=
        fun fsw => cleanup_temp_lookup_ne f fsw _ p hne
      refine ⟨Or.inl ?_, fun _ hr => ⟨cleanup_temp_lookup_self f _ _ hr, ?_⟩⟩
      · rw [hbase]
        exact FS.lookup_write_ne fs _ p ⟨d, now, now⟩ hne
      · rw [hbase]
        exact FS.lookup_write_ne fs _ p ⟨d, now, now⟩ hne

/-- Witness for C2: a failing `pikepdf.open` on an empty directory leaves the
final path absent and the temp file removed. -/
theorem c2_put_atomic_witness :
    (put (fun b => some b) noFaults SaveOutcome.openFail ⟨[]⟩ ['a'] [1] 0).lookup
        (get_cache_path ['a'] ++ TEMP_SUFFIX) = none ∧
      (put (fun b => some b) noFaults SaveOutcome.openFail ⟨[]⟩ ['a'] [1] 0).lookup
        (get_cache_path ['a']) = (⟨[]⟩ : FS).lookup (get_cache_path ['a']) :=
  (c2_put_atomic (fun b => some b) noFaults SaveOutcome.openFail ⟨[]⟩ ['a'] [1] 0).2
    (Or.inl (by decide)) rfl

/-- Counterexample to claim C3: a zero-byte stored file is still reported as a
cache hit by `exists`, `get_path` and `get_data` (the source checks only path
existence there, not size). -/
theorem c3_counterexample :
    (FS.lookup ⟨[("a.pdf".toList, ⟨[], 0, 0⟩)]⟩ (get_cache_path ['a'])).map
        FileMeta.size = some 0 ∧
      cache_exists noFaults ⟨[("a.pdf".toList, ⟨[], 0, 0⟩)]⟩ ['a'] = true ∧
      (get_path noFaults ⟨[("a.pdf".toList, ⟨[], 0, 0⟩)]⟩ ['a'] 5).1 =
        some (get_cache_path ['a']) ∧
      (get_data noFaults ⟨[("a.pdf".toList, ⟨[], 0, 0⟩)]⟩ ['a'] 5).1 = some [] := by
  refine ⟨?_, ?_, ?_, ?_⟩ <;> decide

/-- Claim C3 as amended: zero-size entries are ignored by the directory scan
(they contribute neither an entry nor size), but `exists`, `get_path` and
`get_data` do not check size: a present zero-byte file is reported as a hit
and its empty content is returned. -/
theorem c3_amended :
    (∀ (sf : Name → Bool) (l : List (Name × FileMeta)),
      scan_files sf (l.filter (fun e => decide (0 < e.2.content.length))) =
        scan_files sf l) ∧
    (∀ (fs : FS) (k : Name) (m : FileMeta) (now : Int),
      fs.lookup (get_cache_path k) = some m →
      cache_exists noFaults fs k = true ∧
        (get_path noFaults fs k now).1 = some (get_cache_path k) ∧
        (get_data noFaults fs k now).1 = some m.content) := by
  constructor
  · intro sf l
    induction l with
    | nil => rfl
    | cons e rest ih =>
      rw [List.filter_cons]
      by_cases hz : 0 < e.2.content.length
      · rw [if_pos (by simpa using hz), scan_files_cons, scan_files_cons, ih]
      · rw [if_neg (by simpa using hz), ih, scan_files_cons,
          if_neg (fun hc => hz hc.2.2)]
  · intro fs k m now hm
    have h1 : cache_exists noFaults fs k = true := by
      unfold cache_exists noFaults
      rw [if_neg Bool.false_ne_true, hm]
      rfl
    have h2 : get_path noFaults fs k now =
        (some (get_cache_path k), fs.update (get_cache_path k) ⟨m.content, now, now⟩) := by
      unfold get_path noFaults
      rw [if_neg Bool.false_ne_true, hm]
      exact if_neg Bool.false_ne_true
    refine ⟨h1, by rw [h2], ?_⟩
    unfold get_data
    rw [h2]
    have hr : (noFaults).readFails = false := rfl
    simp only [hr, Bool.false_eq_true, if_false,
      FS.lookup_update_self fs (get_cache_path k) ⟨m.content, now, now⟩ m hm]

/-- Witness for C3 (amended) on a one-byte entry. -/
theorem c3_amended_witness :
    cache_exists noFaults ⟨[("a.pdf".toList, ⟨[7], 0, 0⟩)]⟩ ['a'] = true ∧
      (get_path noFaults ⟨[("a.pdf".toList, ⟨[7], 0, 0⟩)]⟩ ['a'] 5).1 =
        some (get_cache_path ['a']) ∧
      (get_data noFaults ⟨[("a.pdf".toList, ⟨[7], 0, 0⟩)]⟩ ['a'] 5).1 = some [7] :=
  c3_amended.2 ⟨[("a.pdf".toList, ⟨[7], 0, 0⟩)]⟩ ['a'] ⟨[7], 0, 0⟩ 5 (by decide)

/-- Claim C8: for a key with no at-sign and a payload the normalizer accepts,
`put` then `get_data` returns exactly the normalized payload. -/
theorem c8_roundtrip (normalize : Bytes → Option Bytes) (fs : FS) (raw_key : Name)
    (pdf_data : Bytes) (d : Bytes) (now now2 : Int)
    (hk : SANITIZE_REPLACEMENT ∉ raw_key) (hd : normalize pdf_data = some d) :
    (get_data noFaults (put normalize noFaults SaveOutcome.success fs raw_key pdf_data now)
        raw_key now2).1 = some d := by
  have hput : (put normalize noFaults SaveOutcome.success fs raw_key pdf_data now).lookup
      (get_cache_path raw_key) = some ⟨d, now, now⟩ := by
    unfold put save_pdf_sync
    rw [hd]
    exact FS.lookup_write_self _ _ _
  set fs' := put normalize noFaults SaveOutcome.success fs raw_key pdf_data now with hfs'
  have h2 : get_path noFaults fs' raw_key now2 =
      (some (get_cache_path raw_key),
        fs'.update (get_cache_path raw_key) ⟨d, now2, now2⟩) := by
    unfold get_path noFaults
    rw [if_neg Bool.false_ne_true, hput]
    exact if_neg Bool.false_ne_true
  unfold get_data
  rw [h2]
  have hr : (noFaults).readFails = false := rfl
  simp only [hr, Bool.false_eq_true, if_false,
    FS.lookup_update_self fs' (get_cache_path raw_key) ⟨d, now2, now2⟩ _ hput]

/-- Witness for C8 with the identity normalizer on a tiny payload. -/
theorem c8_roundtrip_witness :
    (get_data noFaults
        (put (fun b => some b) noFaults SaveOutcome.success ⟨[]⟩ "a/b".toList [9, 9] 1)
        "a/b".toList 2).1 = some [9, 9] :=
  c8_roundtrip (fun b => some b) ⟨[]⟩ "a/b".toList [9, 9] [9, 9] 1 2 (by decide) rfl

/-- Counterexample to claim C10: when the touch (`os.utime`) fails, the call is
still a cache hit but neither timestamp is set to the current time. -/
theorem c10_counterexample :
    (get_path ⟨false, false, true, false, false, fun _ => false, fun _ => false, false⟩
        ⟨[("a.pdf".toList, ⟨[7], 0, 0⟩)]⟩ ['a'] 5) =
      (some (get_cache_path ['a']), ⟨[("a.pdf".toList, ⟨[7], 0, 0⟩)]⟩) ∧
      ((FS.lookup ⟨[("a.pdf".toList, ⟨[7], 0, 0⟩)]⟩ (get_cache_path ['a'])).map
          FileMeta.mtime = some 0) := by
  constructor <;> decide

/-- Claim C10 as amended: on a cache hit in which the touch succeeds, both the
access and modification times of the stored file are set to the current time
while its content and every other entry are unchanged; `get_data` leaves the
directory exactly as `get_path` does. -/
theorem c10_amended (f : Faults) (fs : FS) (k : Name) (m : FileMeta) (now : Int)
    (hf : f.existsCheckFails = false) (hu : f.utimeFails = false)
    (hm : fs.lookup (get_cache_path k) = some m) :
    get_path f fs k now =
      (some (get_cache_path k), fs.update (get_cache_path k) ⟨m.content, now, now⟩) ∧
    (fs.update (get_cache_path k) ⟨m.content, now, now⟩).lookup (get_cache_path k) =
      some ⟨m.content, now, now⟩ ∧
    (∀ n, n ≠ get_cache_path k →
      (fs.update (get_cache_path k) ⟨m.content, now, now⟩).lookup n = fs.lookup n) ∧
    (get_data f fs k now).2 = (get_path f fs k now).2 := by
  have h2 : get_path f fs k now =
      (some (get_cache_path k), fs.update (get_cache_path k) ⟨m.content, now, now⟩) := by
    unfold get_path
    rw [if_neg (by rw [hf]; exact Bool.false_ne_true), hm]
    exact if_neg (by rw [hu]; exact Bool.false_ne_true)
  refine ⟨h2, FS.lookup_update_self fs _ _ m hm,
    fun n hn => FS.lookup_update_ne fs _ n _ hn, ?_⟩
  unfold get_data
  rw [h2]
  by_cases hr : f.readFails
  · simp only [hr, if_true]
  · simp only [hr, Bool.false_eq_true, if_false]
    cases (fs.update (get_cache_path k) ⟨m.content, now, now⟩).lookup (get_cache_path k) with
    | none => rfl
    | some m2 => rfl

/-- Witness for C10 (amended) on a one-entry directory. -/
theorem c10_amended_witness :
    get_path noFaults ⟨[("a.pdf".toList, ⟨[7], 0, 0⟩)]⟩ ['a'] 5 =
      (some (get_cache_path ['a']),
        (FS.update ⟨[("a.pdf".toList, ⟨[7], 0, 0⟩)]⟩ (get_cache_path ['a']) ⟨[7], 5, 5⟩)) :=
  (c10_amended noFaults ⟨[("a.pdf".toList, ⟨[7], 0, 0⟩)]⟩ ['a'] ⟨[7], 0, 0⟩ 5
    rfl rfl (by decide)).1

-- Purge (`PdfCache.purge`, lines 326-475).

/-- Insert an info record into a sorted list, before the first record with a
strictly larger access time (stability: equal times keep original order). -/
def insert_by_atime (i : CacheFileInfo) : List CacheFileInfo → List CacheFileInfo
  | [] => [i]
  | j :: rest =>
    if i.access_time ≤ j.access_time then i :: j :: rest else j :: insert_by_atime i rest

/-- Stable sort by ascending access time, modelling Python's stable
`list.sort(key=lambda x: x[0])`. -/
def sort_by_atime : List CacheFileInfo → List CacheFileInfo
  | [] => []
  | i :: rest => insert_by_atime i (sort_by_atime rest)

/-- Add a key to the purged-keys set (`set.add`): a list without duplicates. -/
def add_key (l : List Name) (k : Name) : List Name := if k ∈ l then l else l ++ [k]

/-- Deletion loop shared shape of both purge phases: skip an entry whose file
is already gone (`FileNotFoundError`) or whose removal raises (both caught);
otherwise remove the file and record its key. -/
def remove_loop (f : Faults) : List (Name × Name) → FS → List Name → FS × List Name
  | [], fs, purged => (fs, purged)
  | x :: rest, fs, purged =>
    if (fs.lookup x.1).isSome = false then remove_loop f rest fs purged
    else if f.removeFails x.1 then remove_loop f rest fs purged
    else remove_loop f rest (fs.erase x.1) (add_key purged x.2)

/-- Age cutoff: `time.time() - max_age_days * SECONDS_PER_DAY`. -/
def purge_cutoff (now : Int) (max_age_days : Int) : Int :=
  now - max_age_days * SECONDS_PER_DAY

/-- Age purge phase (`cache.py`, lines 346-395): scan, select entries with
access time strictly before the cutoff, delete them in scan order. -/
def age_purge (f : Faults) (fs : FS) (now : Int) (max_age_days : Int) : FS × List Name :=
  remove_loop f
    (((get_cache_files_info f fs).1.filter
        (fun i => decide (i.access_time < purge_cutoff now max_age_days))).map
      (fun i => (i.path, i.key)))
    fs []

/-- Size purge deletion loop (`cache.py`, lines 426-461): stop as soon as the
running total is at or below the target, otherwise delete the next (oldest)
entry, decrementing the total only when the removal succeeds. -/
def size_purge_loop (f : Faults) (target : Int) :
    List CacheFileInfo → FS → Int → List Name → FS × Int × List Name
  | [], fs, total, purged => (fs, total, purged)
  | i :: rest, fs, total, purged =>
    if total ≤ target then (fs, total, purged)
    else if (fs.lookup i.path).isSome = false then size_purge_loop f target rest fs total purged
    else if f.removeFails i.path then size_purge_loop f target rest fs total purged
    else size_purge_loop f target rest (fs.erase i.path) (total - (i.size : Int))
      (add_key purged i.key)

/-- Size target in bytes: `int(max_size_mbytes * BYTES_PER_MBYTE)`; for the
non-negative values the guard admits, Python's truncation is the floor. -/
def mb_to_bytes (mb : ℚ) : Int := Rat.floor (mb * (BYTES_PER_MBYTE : ℚ))

/-- Size purge phase (`cache.py`, lines 398-469): rescan, do nothing when the
total is already at or below the target, otherwise delete in ascending
access-time order. -/
def size_purge (f : Faults) (fs : FS) (target : Int) (purged0 : List Name) :
    FS × List Name :=
  if (get_cache_files_info f fs).2 ≤ target then (fs, purged0)
  else
    ((size_purge_loop f target (sort_by_atime (get_cache_files_info f fs).1) fs
        (get_cache_files_info f fs).2 purged0).1,
      (size_purge_loop f target (sort_by_atime (get_cache_files_info f fs).1) fs
        (get_cache_files_info f fs).2 purged0).2.2)

/-- Age phase dispatch: runs only when `max_age_days` is provided and
strictly positive. -/
def age_phase (f : Faults) (fs : FS) (max_age_days : Option Int) (now : Int) :
    FS × List Name :=
  match max_age_days with
  | some d => if 0 < d then age_purge f fs now d else (fs, [])
  | none => (fs, [])

/-- Size phase dispatch: runs only when `max_size_mbytes` is provided and
non-negative; it shares the purged-keys set with the age phase. -/
def size_phase (f : Faults) (r1 : FS × List Name) (max_size_mbytes : Option ℚ) :
    FS × List Name :=
  match max_size_mbytes with
  | some mb => if 0 ≤ mb then size_purge f r1.1 (mb_to_bytes mb) r1.2 else r1
  | none => r1

/-- Purge the cache (`PdfCache.purge`): age phase first, then size phase on
the updated directory, returning the final state and the unique purged keys. -/
def purge (f : Faults) (fs : FS) (max_size_mbytes : Option ℚ)
    (max_age_days : Option Int) (now : Int) : FS × List Name :=
  size_phase f (age_phase f fs max_age_days now) max_size_mbytes

-- Facts about the sort and the loops.

theorem rat_floor_eq_floor (q : ℚ) : Rat.floor q = ⌊q⌋ := rfl

theorem mem_insert_by_atime (i x : CacheFileInfo) (l : List CacheFileInfo) :
    x ∈ insert_by_atime i l ↔ x = i ∨ x ∈ l := by
  induction l with
  | nil => simp [insert_by_atime]
  | cons j rest ih =>
    unfold insert_by_atime
    by_cases h : i.access_time ≤ j.access_time
    · rw [if_pos h]
      simp
    · rw [if_neg h]
      simp only [List.mem_cons, ih]
      tauto

theorem mem_sort_by_atime (x : CacheFileInfo) (l : List CacheFileInfo) :
    x ∈ sort_by_atime l ↔ x ∈ l := by
  induction l with
  | nil => simp [sort_by_atime]
  | cons i rest ih =>
    unfold sort_by_atime
    rw [mem_insert_by_atime]
    simp [ih]

theorem pairwise_insert_by_atime (i : CacheFileInfo) (l : List CacheFileInfo)
    (h : List.Pairwise (fun a b => a.access_time ≤ b.access_time) l) :
    List.Pairwise (fun a b => a.access_time ≤ b.access_time) (insert_by_atime i l) := by
  induction l with
  | nil => simp [insert_by_atime]
  | cons j rest ih =>
    rcases List.pairwise_cons.mp h with ⟨hj, hrest⟩
    unfold insert_by_atime
    by_cases hle : i.access_time ≤ j.access_time
    · rw [if_pos hle]
      refine List.pairwise_cons.mpr ⟨?_, h⟩
      intro b hb
      rcases List.mem_cons.mp hb with hb | hb
      · exact hb ▸ hle
      · exact le_trans hle (hj b hb)
    · rw [if_neg hle]
      refine List.pairwise_cons.mpr ⟨?_, ih hrest⟩
      intro b hb
      rcases (mem_insert_by_atime i b rest).mp hb with hb | hb
      · exact hb ▸ le_of_not_le hle
      · exact hj b hb

theorem pairwise_sort_by_atime (l : List CacheFileInfo) :
    List.Pairwise (fun a b => a.access_time ≤ b.access_time) (sort_by_atime l) := by
  induction l with
  | nil => exact List.Pairwise.nil
  | cons i rest ih => exact pairwise_insert_by_atime i (sort_by_atime rest) ih

theorem sort_by_atime_of_sorted (l : List CacheFileInfo)
    (h : List.Pairwise (fun a b => a.access_time ≤ b.access_time) l) :
    sort_by_atime l = l := by
  induction l with
  | nil => rfl
  | cons i rest ih =>
    rcases List.pairwise_cons.mp h with ⟨hi, hrest⟩
    unfold sort_by_atime
    rw [ih hrest]
    cases rest with
    | nil => rfl
    | cons j rest2 => exact if_pos (hi j (List.mem_cons_self j rest2))

-- Characterization of the scan as a filter-and-map.

/-- Boolean form of the scan's keep condition. -/
def scan_keep (sf : Name → Bool) (e : Name × FileMeta) : Bool :=
  decide (valid_cache_name e.1) && decide (sf e.1 = false) && decide (0 < e.2.content.length)

/-- Info record built by the scan for a kept file. -/
def mk_info (e : Name × FileMeta) : CacheFileInfo :=
  ⟨e.2.atime, e.2.content.length, e.1,
    unsanitize_filename (e.1.take (e.1.length - CACHE_SUFFIX.length))⟩

theorem scan_files_eq (sf : Name → Bool) (l : List (Name × FileMeta)) :
    scan_files sf l = ((l.filter (scan_keep sf)).map mk_info,
      ((l.filter (scan_keep sf)).map (fun e => (e.2.content.length : Int))).sum) := by
  induction l with
  | nil => rfl
  | cons e rest ih =>
    rw [scan_files_cons, List.filter_cons]
    by_cases hc : valid_cache_name e.1 ∧ sf e.1 = false ∧ 0 < e.2.content.length
    · rw [if_pos hc, if_pos (by simp [scan_keep, hc.1, hc.2.1, hc.2.2]), ih]
      simp [mk_info]
    · rw [if_neg hc, if_neg (by simp only [scan_keep, Bool.and_eq_true,
        decide_eq_true_eq, and_assoc]; exact hc), ih]

theorem scan_paths_sublist (sf : Name → Bool) (l : List (Name × FileMeta)) :
    ((scan_files sf l).1.map (fun i => i.path)).Sublist (l.map Prod.fst) := by
  rw [scan_files_eq]
  rw [List.map_map]
  have : ((fun i => i.path) ∘ mk_info) = Prod.fst := rfl
  rw [this]
  exact List.Sublist.map Prod.fst (List.filter_sublist l)

theorem scan_mem_path (sf : Name → Bool) (l : List (Name × FileMeta))
    (i : CacheFileInfo) (h : i ∈ (scan_files sf l).1) :
    ∃ m, (i.path, m) ∈ l ∧ scan_keep sf (i.path, m) = true ∧ i = mk_info (i.path, m) := by
  rw [scan_files_eq] at h
  rcases List.mem_map.mp h with ⟨e, he, hi⟩
  rcases List.mem_filter.mp he with ⟨hmem, hkeep⟩
  refine ⟨e.2, ?_, ?_, ?_⟩
  · have : i.path = e.1 := by rw [← hi]; rfl
    rw [this]
    exact hmem
  · have : (i.path, e.2) = e := by rw [← hi]; rfl
    rw [this]
    exact hkeep
  · have : (i.path, e.2) = e := by rw [← hi]; rfl
    rw [this, hi]

-- Deletion-loop lemmas.

theorem remove_loop_preserve (f : Faults) (l : List (Name × Name)) (fs : FS)
    (p : List Name) (n : Name) (h : n ∉ l.map Prod.fst) :
    ((remove_loop f l fs p).1).lookup n = fs.lookup n := by
  induction l generalizing fs p with
  | nil => rfl
  | cons x rest ih =>
    simp only [List.map_cons, List.mem_cons, not_or] at h
    unfold remove_loop
    by_cases h1 : (fs.lookup x.1).isSome = false
    · rw [if_pos h1]
      exact ih fs p h.2
    · rw [if_neg h1]
      by_cases h2 : f.removeFails x.1
      · rw [if_pos h2]
        exact ih fs p h.2
      · rw [if_neg h2, ih _ _ h.2]
        exact fs.lookup_erase_ne x.1 n h.1

theorem remove_loop_files_sublist (f : Faults) (l : List (Name × Name)) (fs : FS)
    (p : List Name) : ((remove_loop f l fs p).1).files.Sublist fs.files := by
  induction l generalizing fs p with
  | nil => exact List.Sublist.refl _
  | cons x rest ih =>
    unfold remove_loop
    by_cases h1 : (fs.lookup x.1).isSome = false
    · rw [if_pos h1]
      exact ih fs p
    · rw [if_neg h1]
      by_cases h2 : f.removeFails x.1
      · rw [if_pos h2]
        exact ih fs p
      · rw [if_neg h2]
        exact List.Sublist.trans (ih _ _) (List.filter_sublist fs.files)

theorem remove_loop_allfail (f : Faults) (l : List (Name × Name)) (fs : FS)
    (p : List Name) (h : ∀ x ∈ l, f.removeFails x.1 = true) :
    remove_loop f l fs p = (fs, p) := by
  induction l with
  | nil => rfl
  | cons x rest ih =>
    unfold remove_loop
    by_cases h1 : (fs.lookup x.1).isSome = false
    · rw [if_pos h1]
      exact ih (fun y hy => h y (List.mem_cons_of_mem x hy))
    · rw [if_neg h1, if_pos (h x (List.mem_cons_self x rest))]
      exact ih (fun y hy => h y (List.mem_cons_of_mem x hy))

theorem remove_loop_spec (f : Faults) (l : List (Name × Name)) (fs : FS) (p : List Name)
    (hnd : (l.map Prod.fst).Nodup)
    (hmem : ∀ x ∈ l, (fs.lookup x.1).isSome = true)
    (hrf : ∀ x ∈ l, f.removeFails x.1 = false) :
    remove_loop f l fs p =
      (⟨fs.files.filter (fun e => decide (e.1 ∉ l.map Prod.fst))⟩,
        (l.map Prod.snd).foldl add_key p) := by
  induction l generalizing fs p with
  | nil =>
    show (fs, p) = _
    have : fs.files.filter (fun e => decide (e.1 ∉ ([] : List (Name × Name)).map Prod.fst)) =
        fs.files := List.filter_eq_self.mpr (by simp)
    rw [this]
    rfl
  | cons x rest ih =>
    simp only [List.map_cons, List.nodup_cons] at hnd
    have hx : (fs.lookup x.1).isSome = true := hmem x (List.mem_cons_self x rest)
    unfold remove_loop
    rw [if_neg (by rw [hx]; decide),
      if_neg (by rw [hrf x (List.mem_cons_self x rest)]; exact Bool.false_ne_true)]
    have hih := ih (fs.erase x.1) (add_key p x.2) hnd.2
      (fun y hy => by
        rw [FS.lookup_erase_ne fs x.1 y.1
          (fun he => hnd.1 (he ▸ List.mem_map.mpr ⟨y, hy, rfl⟩))]
        exact hmem y (List.mem_cons_of_mem x hy))
      (fun y hy => hrf y (List.mem_cons_of_mem x hy))
    rw [hih]
    refine Prod.ext ?_ rfl
    show FS.mk _ = FS.mk _
    refine congrArg FS.mk ?_
    show ((fs.files.filter _).filter _) = _
    rw [List.filter_filter]
    refine List.filter_congr ?_
    intro e _
    by_cases h1 : e.1 = x.1 <;> by_cases h2 : e.1 ∈ rest.map Prod.fst <;>
      simp [h1, h2]

theorem size_purge_loop_stop (f : Faults) (target : Int) (l : List CacheFileInfo)
    (fs : FS) (total : Int) (p : List Name) (h : total ≤ target) :
    size_purge_loop f target l fs total p = (fs, total, p) := by
  cases l with
  | nil => rfl
  | cons i rest =>
    unfold size_purge_loop
    rw [if_pos h]

theorem size_purge_loop_step (f : Faults) (target : Int) (i : CacheFileInfo)
    (rest : List CacheFileInfo) (fs : FS) (total : Int) (p : List Name) (m : FileMeta)
    (h : ¬ total ≤ target) (hm : fs.lookup i.path = some m)
    (hrf : f.removeFails i.path = false) :
    size_purge_loop f target (i :: rest) fs total p =
      size_purge_loop f target rest (fs.erase i.path) (total - (i.size : Int))
        (add_key p i.key) := by
  conv_lhs => unfold size_purge_loop
  rw [if_neg h, if_neg (by rw [hm]; simp),
    if_neg (by rw [hrf]; exact Bool.false_ne_true)]

theorem size_purge_loop_preserve (f : Faults) (target : Int) (l : List CacheFileInfo)
    (fs : FS) (total : Int) (p : List Name) (n : Name)
    (h : n ∉ l.map (fun i => i.path)) :
    ((size_purge_loop f target l fs total p).1).lookup n = fs.lookup n := by
  induction l generalizing fs total p with
  | nil => rfl
  | cons i rest ih =>
    simp only [List.map_cons, List.mem_cons, not_or] at h
    unfold size_purge_loop
    by_cases h0 : total ≤ target
    · rw [if_pos h0]
    · rw [if_neg h0]
      by_cases h1 : (fs.lookup i.path).isSome = false
      · rw [if_pos h1]
        exact ih fs total p h.2
      · rw [if_neg h1]
        by_cases h2 : f.removeFails i.path
        · rw [if_pos h2]
          exact ih fs total p h.2
        · rw [if_neg h2, ih _ _ _ h.2]
          exact fs.lookup_erase_ne i.path n h.1

theorem size_purge_loop_allfail (f : Faults) (target : Int) (l : List CacheFileInfo)
    (fs : FS) (total : Int) (p : List Name)
    (h : ∀ i ∈ l, f.removeFails i.path = true) :
    size_purge_loop f target l fs total p = (fs, total, p) := by
  induction l with
  | nil => rfl
  | cons i rest ih =>
    unfold size_purge_loop
    by_cases h0 : total ≤ target
    · rw [if_pos h0]
    · rw [if_neg h0]
      by_cases h1 : (fs.lookup i.path).isSome = false
      · rw [if_pos h1]
        exact ih (fun j hj => h j (List.mem_cons_of_mem i hj))
      · rw [if_neg h1, if_pos (h i (List.mem_cons_self i rest))]
        exact ih (fun j hj => h j (List.mem_cons_of_mem i hj))

-- Purge-phase dispatch equations and target facts.

theorem age_phase_none (f : Faults) (fs : FS) (now : Int) :
    age_phase f fs none now = (fs, []) := rfl

theorem age_phase_some (f : Faults) (fs : FS) (d now : Int) :
    age_phase f fs (some d) now =
      if 0 < d then age_purge f fs now d else (fs, []) := rfl

theorem size_phase_none (f : Faults) (r1 : FS × List Name) :
    size_phase f r1 none = r1 := rfl

theorem size_phase_some (f : Faults) (r1 : FS × List Name) (mb : ℚ) :
    size_phase f r1 (some mb) =
      if 0 ≤ mb then size_purge f r1.1 (mb_to_bytes mb) r1.2 else r1 := rfl

theorem mb_to_bytes_nonneg (mb : ℚ) (h : 0 ≤ mb) : 0 ≤ mb_to_bytes mb := by
  unfold mb_to_bytes
  rw [rat_floor_eq_floor]
  apply Int.le_floor.mpr
  rw [Int.cast_zero]
  exact mul_nonneg h (by norm_num [BYTES_PER_MBYTE])

theorem gci_listdir_fail (f : Faults) (fs : FS) (h : f.listdirFails = true) :
    get_cache_files_info f fs = ([], 0) := by
  unfold get_cache_files_info
  rw [if_pos h]

theorem gci_noFaults (fs : FS) :
    get_cache_files_info noFaults fs = scan_files (fun _ => false) fs.files := rfl

-- A file that the scan rejects is never touched by any purge.

theorem scan_path_excl (sf : Name → Bool) (fs : FS) (n : Name) (m : FileMeta)
    (hnd : (fs.files.map Prod.fst).Nodup) (hm : fs.lookup n = some m)
    (hbad : ¬ (valid_cache_name n ∧ 0 < m.content.length)) :
    n ∉ ((scan_files sf fs.files).1.map (fun i => i.path)) := by
  intro hmem
  rcases List.mem_map.mp hmem with ⟨i, hi, hpath⟩
  rcases scan_mem_path sf fs.files i hi with ⟨m2, hmem2, hkeep, _⟩
  rw [hpath] at hmem2 hkeep
  have hm2 : m2 = m := by
    have h2 := mem_lookup_meta fs.files n m2 hnd hmem2
    have h3 : some m2 = some m := by rw [← h2, ← hm]; rfl
    exact Option.some_injective _ h3
  subst hm2
  simp only [scan_keep, Bool.and_eq_true, decide_eq_true_eq] at hkeep
  exact hbad ⟨hkeep.1.1, hkeep.2⟩

theorem age_purge_excl_preserve (f : Faults) (fs : FS) (now d : Int) (n : Name)
    (hn : n ∉ ((scan_files f.statFails fs.files).1.map (fun i => i.path))) :
    ((age_purge f fs now d).1).lookup n = fs.lookup n := by
  unfold age_purge
  apply remove_loop_preserve
  intro hmem
  apply hn
  rw [List.map_map] at hmem
  rcases List.mem_map.mp hmem with ⟨i, hi, hpath⟩
  have hi2 : i ∈ (get_cache_files_info f fs).1 := List.mem_of_mem_filter hi
  unfold get_cache_files_info at hi2
  by_cases hld : f.listdirFails = true
  · rw [if_pos hld] at hi2
    exact absurd hi2 (List.not_mem_nil i)
  · rw [if_neg hld] at hi2
    exact List.mem_map.mpr ⟨i, hi2, hpath⟩

theorem age_phase_files_sublist (f : Faults) (fs : FS) (md : Option Int) (now : Int) :
    ((age_phase f fs md now).1).files.Sublist fs.files := by
  cases md with
  | none => exact List.Sublist.refl _
  | some d =>
    rw [age_phase_some]
    by_cases hd : 0 < d
    · rw [if_pos hd]
      exact remove_loop_files_sublist f _ fs []
    · rw [if_neg hd]

theorem age_phase_excl_preserve (f : Faults) (fs : FS) (md : Option Int) (now : Int)
    (n : Name) (hn : n ∉ ((scan_files f.statFails fs.files).1.map (fun i => i.path))) :
    ((age_phase f fs md now).1).lookup n = fs.lookup n := by
  cases md with
  | none => rfl
  | some d =>
    rw [age_phase_some]
    by_cases hd : 0 < d
    · rw [if_pos hd]
      exact age_purge_excl_preserve f fs now d n hn
    · rw [if_neg hd]

/-- A stored file that the scan rejects for every state (here: because it is
invalid or empty) is never deleted by `purge`, whatever the thresholds. -/
theorem purge_preserve (f : Faults) (fs : FS) (ms : Option ℚ) (md : Option Int)
    (now : Int) (n : Name) (m : FileMeta)
    (hnd : (fs.files.map Prod.fst).Nodup) (hm : fs.lookup n = some m)
    (hbad : ¬ (valid_cache_name n ∧ 0 < m.content.length)) :
    ((purge f fs ms md now).1).lookup n = some m := by
  have hexcl1 : n ∉ ((scan_files f.statFails fs.files).1.map (fun i => i.path)) :=
    scan_path_excl f.statFails fs n m hnd hm hbad
  have h1 : ((age_phase f fs md now).1).lookup n = some m := by
    rw [age_phase_excl_preserve f fs md now n hexcl1, hm]
  have hsub : ((age_phase f fs md now).1).files.Sublist fs.files :=
    age_phase_files_sublist f fs md now
  have hnd1 : (((age_phase f fs md now).1).files.map Prod.fst).Nodup :=
    List.Nodup.sublist (List.Sublist.map Prod.fst hsub) hnd
  have hexcl2 : n ∉
      ((scan_files f.statFails ((age_phase f fs md now).1).files).1.map
        (fun i => i.path)) :=
    scan_path_excl f.statFails (age_phase f fs md now).1 n m hnd1 h1 hbad
  unfold purge
  cases ms with
  | none => exact h1
  | some mb =>
    rw [size_phase_some]
    by_cases hge : 0 ≤ mb
    · rw [if_pos hge]
      unfold size_purge
      by_cases hle :
          (get_cache_files_info f (age_phase f fs md now).1).2 ≤ mb_to_bytes mb
      · rw [if_pos hle]
        exact h1
      · rw [if_neg hle]
        show ((size_purge_loop f _ _ _ _ _).1).lookup n = some m
        rw [size_purge_loop_preserve]
        · exact h1
        · intro hmem
          apply hexcl2
          rcases List.mem_map.mp hmem with ⟨i, hi, hpath⟩
          have hi2 : i ∈ (get_cache_files_info f (age_phase f fs md now).1).1 :=
            (mem_sort_by_atime i _).mp hi
          unfold get_cache_files_info at hi2
          by_cases hld : f.listdirFails = true
          · rw [if_pos hld] at hi2
            exact absurd hi2 (List.not_mem_nil i)
          · rw [if_neg hld] at hi2
            exact List.mem_map.mpr ⟨i, hi2, hpath⟩
    · rw [if_neg hge]
      exact h1

/-- Counterexample to claim C4: the supplied size threshold is interpreted as
megabytes, not bytes: the computed byte target for `1` is `1048576`, and a
cache of total size 2 bytes is not purged by `purge(max_size=1)` although it
strictly exceeds 1 byte. -/
theorem c4_counterexample :
    mb_to_bytes 1 ≠ 1 ∧
      (get_cache_files_info noFaults ⟨[("a.pdf".toList, ⟨[3, 3], 0, 0⟩)]⟩).2 = 2 ∧
      purge noFaults ⟨[("a.pdf".toList, ⟨[3, 3], 0, 0⟩)]⟩ (some 1) none 0 =
        (⟨[("a.pdf".toList, ⟨[3, 3], 0, 0⟩)]⟩, []) := by
  have h1 : mb_to_bytes 1 = 1048576 := by
    unfold mb_to_bytes
    rw [rat_floor_eq_floor]
    have : ((BYTES_PER_MBYTE : Int) : ℚ) = ((1048576 : Int) : ℚ) := by
      norm_num [BYTES_PER_MBYTE]
    rw [one_mul, this, Int.floor_intCast]
  have hscan : (get_cache_files_info noFaults ⟨[("a.pdf".toList, ⟨[3, 3], 0, 0⟩)]⟩).2 = 2 := by
    decide
  refine ⟨by rw [h1]; decide, hscan, ?_⟩
  unfold purge
  rw [age_phase_none, size_phase_some, if_pos (by norm_num)]
  unfold size_purge
  rw [if_pos (by rw [hscan, h1]; decide)]

/-- Claim C4 as amended: the threshold `s` supplied to the size phase is in
megabytes — the byte target is `⌊s * BYTES_PER_MBYTE⌋`; consequently whenever
the scanned total size (in bytes) is at most `s` (a fortiori at most the
target), the size phase deletes nothing. -/
theorem c4_amended (f : Faults) (fs : FS) (s : ℚ) (now : Int)
    (h0 : 0 ≤ s) (hle : (((get_cache_files_info f fs).2 : Int) : ℚ) ≤ s) :
    mb_to_bytes s = ⌊s * (BYTES_PER_MBYTE : ℚ)⌋ ∧
      purge f fs (some s) none now = (fs, []) := by
  refine ⟨rat_floor_eq_floor _, ?_⟩
  have htot : (get_cache_files_info f fs).2 ≤ mb_to_bytes s := by
    unfold mb_to_bytes
    rw [rat_floor_eq_floor]
    apply Int.le_floor.mpr
    calc (((get_cache_files_info f fs).2 : Int) : ℚ) ≤ s := hle
      _ = s * 1 := (mul_one s).symm
      _ ≤ s * (BYTES_PER_MBYTE : ℚ) :=
        mul_le_mul_of_nonneg_left (by norm_num [BYTES_PER_MBYTE]) h0
  unfold purge
  rw [age_phase_none, size_phase_some, if_pos h0]
  unfold size_purge
  rw [if_pos htot]

/-- Witness for C4 (amended) on the empty directory with threshold 0. -/
theorem c4_amended_witness :
    mb_to_bytes 0 = ⌊(0 : ℚ) * (BYTES_PER_MBYTE : ℚ)⌋ ∧
      purge noFaults ⟨[]⟩ (some 0) none 7 = (⟨[]⟩, []) :=
  c4_amended noFaults ⟨[]⟩ 0 7 (le_refl 0) (by simp [get_cache_files_info, noFaults, scan_files])

/-- Claim C7: every fallible step degrades as designed instead of raising: a
failing existence check makes `exists` answer `false` and `get_path` a miss, a
failing read makes `get_data` a miss, a failing directory listing or failing
removals make `purge` a logged no-op returning no keys, and only
construction (`__init__`) propagates an error — exactly when the cache root
cannot be created. Every operation is a total function of the fault
environment, modelling that no exception escapes to the caller. -/
theorem c7_error_policy :
    (∀ (f : Faults) (fs : FS) (k : Name), f.existsCheckFails = true →
      cache_exists f fs k = false) ∧
    (∀ (f : Faults) (fs : FS) (k : Name) (now : Int), f.existsCheckFails = true →
      get_path f fs k now = (none, fs)) ∧
    (∀ (f : Faults) (fs : FS) (k : Name) (now : Int), f.readFails = true →
      (get_data f fs k now).1 = none) ∧
    (∀ (f : Faults) (fs : FS) (ms : Option ℚ) (md : Option Int) (now : Int),
      f.listdirFails = true → purge f fs ms md now = (fs, [])) ∧
    (∀ (f : Faults) (fs : FS) (ms : Option ℚ) (md : Option Int) (now : Int),
      (∀ n, f.removeFails n = true) → purge f fs ms md now = (fs, [])) ∧
    (∀ f : Faults, cache_init f = Except.error OSErr.osError ↔ f.mkdirFails = true) := by
  refine ⟨?_, ?_, ?_, ?_, ?_, ?_⟩
  · intro f fs k h
    unfold cache_exists
    rw [if_pos h]
  · intro f fs k now h
    unfold get_path
    rw [if_pos h]
  · intro f fs k now h
    unfold get_data
    cases hgp : get_path f fs k now with
    | mk op fs2 =>
      cases op with
      | none => rfl
      | some p => simp only [h, if_true]
  · intro f fs ms md now h
    have hage : age_phase f fs md now = (fs, []) := by
      cases md with
      | none => rfl
      | some d =>
        rw [age_phase_some]
        by_cases hd : 0 < d
        · rw [if_pos hd]
          unfold age_purge
          rw [gci_listdir_fail f fs h]
          rfl
        · rw [if_neg hd]
    cases ms with
    | none =>
      unfold purge
      rw [size_phase_none, hage]
    | some mb =>
      unfold purge
      rw [hage, size_phase_some]
      by_cases hge : 0 ≤ mb
      · rw [if_pos hge]
        unfold size_purge
        rw [gci_listdir_fail f fs h, if_pos (by simpa using mb_to_bytes_nonneg mb hge)]
      · rw [if_neg hge]
  · intro f fs ms md now h
    have hage : age_phase f fs md now = (fs, []) := by
      cases md with
      | none => rfl
      | some d =>
        rw [age_phase_some]
        by_cases hd : 0 < d
        · rw [if_pos hd]
          unfold age_purge
          rw [remove_loop_allfail f _ fs [] (fun x _ => h x.1)]
        · rw [if_neg hd]
    cases ms with
    | none =>
      unfold purge
      rw [size_phase_none, hage]
    | some mb =>
      unfold purge
      rw [hage, size_phase_some]
      by_cases hge : 0 ≤ mb
      · rw [if_pos hge]
        unfold size_purge
        by_cases hle : (get_cache_files_info f fs).2 ≤ mb_to_bytes mb
        · rw [if_pos hle]
        · rw [if_neg hle,
            size_purge_loop_allfail f _ _ fs _ [] (fun i _ => h i.path)]
      · rw [if_neg hge]
  · intro f
    unfold cache_init
    by_cases h : f.mkdirFails
    · rw [if_pos h]
      simp [h]
    · rw [if_neg h]
      simp only [Bool.not_eq_true] at h
      simp [h]

/-- Witness for C7: a purge under a failing directory listing is a no-op. -/
theorem c7_error_policy_witness :
    purge ⟨false, false, false, false, true, fun _ => false, fun _ => false, false⟩
        ⟨[("a.pdf".toList, ⟨[7], 0, 0⟩)]⟩ (some 0) (some 1) 0 =
      (⟨[("a.pdf".toList, ⟨[7], 0, 0⟩)]⟩, []) :=
  c7_error_policy.2.2.2.1
    ⟨false, false, false, false, true, fun _ => false, fun _ => false, false⟩
    ⟨[("a.pdf".toList, ⟨[7], 0, 0⟩)]⟩ (some 0) (some 1) 0 rfl

/-- Claim C6: the scan lists a stored file exactly when its name ends in the
artifact suffix, does not end in the temporary suffix, and its size is
strictly positive; a zero-byte or temp-suffixed file contributes nothing to
the scan (so neither to `list_cached_keys` nor to the total size: deleting it
does not change the scan at all) and is never removed by any purge. -/
theorem c6_scan_exclusion (fs : FS) (n : Name) (m : FileMeta)
    (hnd : (fs.files.map Prod.fst).Nodup) (hmem : (n, m) ∈ fs.files) :
    ((∃ i ∈ (get_cache_files_info noFaults fs).1, i.path = n) ↔
      (CACHE_SUFFIX.isSuffixOf n = true ∧ TEMP_SUFFIX.isSuffixOf n = false ∧
        0 < m.content.length)) ∧
    ((m.content.length = 0 ∨ TEMP_SUFFIX.isSuffixOf n = true) →
      get_cache_files_info noFaults fs = get_cache_files_info noFaults (fs.erase n) ∧
        list_cached_keys noFaults fs = list_cached_keys noFaults (fs.erase n) ∧
        (∀ (f2 : Faults) (ms : Option ℚ) (md : Option Int) (now : Int),
          ((purge f2 fs ms md now).1).lookup n = some m)) := by
  have hlook : fs.lookup n = some m := mem_lookup_meta fs.files n m hnd hmem
  constructor
  · constructor
    · rintro ⟨i, hi, hpath⟩
      rw [gci_noFaults] at hi
      rcases scan_mem_path _ _ i hi with ⟨m2, hmem2, hkeep, _⟩
      rw [hpath] at hmem2 hkeep
      have hm2 : m2 = m := by
        have h2 := mem_lookup_meta fs.files n m2 hnd hmem2
        exact Option.some_injective _ (h2.symm.trans hlook)
      subst hm2
      simp only [scan_keep, Bool.and_eq_true, decide_eq_true_eq] at hkeep
      have hv : valid_cache_name n := hkeep.1.1
      unfold valid_cache_name at hv
      exact ⟨hv.1, hv.2, hkeep.2⟩
    · rintro ⟨hsuf, htemp, hpos⟩
      refine ⟨mk_info (n, m), ?_, rfl⟩
      rw [gci_noFaults, scan_files_eq]
      refine List.mem_map.mpr ⟨(n, m), List.mem_filter.mpr ⟨hmem, ?_⟩, rfl⟩
      simp [scan_keep, valid_cache_name, hsuf, htemp, hpos]
  · intro hbad0
    have hbad : ¬ (valid_cache_name n ∧ 0 < m.content.length) := by
      rintro ⟨hv, hp⟩
      unfold valid_cache_name at hv
      rcases hbad0 with h0 | h0
      · rw [h0] at hp
        exact absurd hp (by norm_num)
      · rw [hv.2] at h0
        exact Bool.false_ne_true h0
    have hscan_eq : scan_files (fun _ => false) (fs.files.filter (fun e => decide (e.1 ≠ n))) =
        scan_files (fun _ => false) fs.files := by
      rw [scan_files_eq, scan_files_eq]
      have hff : (fs.files.filter (fun e => decide (e.1 ≠ n))).filter
          (scan_keep (fun _ => false)) = fs.files.filter (scan_keep (fun _ => false)) := by
        rw [List.filter_filter]
        refine List.filter_congr ?_
        intro e he
        by_cases hen : e.1 = n
        · have hm2 : e.2 = m := by
            have hme : (e.1, e.2) ∈ fs.files := by simpa using he
            have h2 := mem_lookup_meta fs.files e.1 e.2 hnd hme
            rw [hen] at h2
            exact Option.some_injective _ (h2.symm.trans hlook)
          have hkeepF : scan_keep (fun _ => false) e = false := by
            rcases hbad0 with h0 | h0
            · simp [scan_keep, hm2, h0]
            · simp [scan_keep, valid_cache_name, hen, h0]
          rw [hkeepF]
          rfl
        · simp [hen]
      rw [hff]
    have hgci2 : get_cache_files_info noFaults (fs.erase n) =
        get_cache_files_info noFaults fs := by
      rw [gci_noFaults, gci_noFaults]
      exact hscan_eq
    refine ⟨hgci2.symm, ?_, ?_⟩
    · unfold list_cached_keys
      rw [hgci2]
    · intro f2 ms md now
      exact purge_preserve f2 fs ms md now n m hnd hlook hbad

/-- Witness for C6: a zero-byte entry survives a purge with both thresholds. -/
theorem c6_scan_exclusion_witness :
    ((purge noFaults ⟨[("a.pdf".toList, ⟨[], 3, 3⟩), ("b.pdf".toList, ⟨[7], 4, 4⟩)]⟩
        (some 0) (some 1) 5).1).lookup "a.pdf".toList = some ⟨[], 3, 3⟩ :=
  ((c6_scan_exclusion ⟨[("a.pdf".toList, ⟨[], 3, 3⟩), ("b.pdf".toList, ⟨[7], 4, 4⟩)]⟩
      "a.pdf".toList ⟨[], 3, 3⟩ (by decide) (by decide)).2 (Or.inl rfl)).2.2
    noFaults (some 0) (some 1) 5

/-- A stored file the age phase deletes: a valid, non-empty entry whose
access time is strictly older than the cutoff. -/
def stale_entry (now d : Int) (e : Name × FileMeta) : Bool :=
  decide (valid_cache_name e.1) && decide (0 < e.2.content.length) &&
    decide (e.2.atime < purge_cutoff now d)

/-- Claim C5: the age phase runs only when `max_age` is provided and positive;
when it runs (with no faults and distinct filenames) it deletes exactly the
valid entries whose access time is strictly older than `now - max_age`,
returning their keys; in particular with two entries around the cutoff it
removes exactly the older one. -/
theorem c5_age_purge :
    (∀ (f : Faults) (fs : FS) (now : Int), purge f fs none none now = (fs, [])) ∧
    (∀ (f : Faults) (fs : FS) (d now : Int), d ≤ 0 →
      purge f fs none (some d) now = (fs, [])) ∧
    (∀ (fs : FS) (d now : Int), 0 < d → (fs.files.map Prod.fst).Nodup →
      purge noFaults fs none (some d) now =
        (⟨fs.files.filter (fun e => ! stale_entry now d e)⟩,
          ((fs.files.filter (stale_entry now d)).map
            (fun e => (mk_info e).key)).foldl add_key [])) ∧
    (∀ (t1 t2 d now : Int) (b1 b2 : Bytes), b1 ≠ [] → b2 ≠ [] → 0 < d →
      t1 < purge_cutoff now d → purge_cutoff now d < t2 →
      purge noFaults ⟨[("a.pdf".toList, ⟨b1, t1, t1⟩), ("b.pdf".toList, ⟨b2, t2, t2⟩)]⟩
          none (some d) now =
        (⟨[("b.pdf".toList, ⟨b2, t2, t2⟩)]⟩, [['a']])) := by
  have hchar : ∀ (fs : FS) (d now : Int), 0 < d → (fs.files.map Prod.fst).Nodup →
      purge noFaults fs none (some d) now =
        (⟨fs.files.filter (fun e => ! stale_entry now d e)⟩,
          ((fs.files.filter (stale_entry now d)).map
            (fun e => (mk_info e).key)).foldl add_key []) := by
    intro fs d now hd hnd
    unfold purge
    rw [age_phase_some, if_pos hd, size_phase_none]
    unfold age_purge
    have hcomb : ∀ e ∈ fs.files,
        (((fun i => decide (i.access_time < purge_cutoff now d)) ∘ mk_info) e &&
          scan_keep (fun _ => false) e) = stale_entry now d e := by
      intro e _
      by_cases h1 : valid_cache_name e.1 <;> by_cases h2 : 0 < e.2.content.length <;>
        by_cases h3 : e.2.atime < purge_cutoff now d <;>
          simp [scan_keep, stale_entry, mk_info, Function.comp, h1, h2, h3]
    have hl0 : (((get_cache_files_info noFaults fs).1.filter
          (fun i => decide (i.access_time < purge_cutoff now d))).map
            (fun i => (i.path, i.key))) =
        (fs.files.filter (stale_entry now d)).map (fun e => (e.1, (mk_info e).key)) := by
      rw [gci_noFaults, scan_files_eq]
      show (((fs.files.filter (scan_keep fun _ => false)).map mk_info).filter _).map _ = _
      rw [List.filter_map, List.filter_filter, List.filter_congr hcomb, List.map_map]
      exact List.map_congr_left (fun e _ => rfl)
    rw [hl0]
    set l := fs.files.filter (stale_entry now d) with hldef
    set F : Name × FileMeta → Name × Name := fun e => (e.1, (mk_info e).key) with hFdef
    have hmf : (l.map F).map Prod.fst = l.map Prod.fst := by
      rw [List.map_map]
      exact List.map_congr_left (fun e _ => rfl)
    have hsubl : (l.map Prod.fst).Sublist (fs.files.map Prod.fst) :=
      List.Sublist.map Prod.fst (List.filter_sublist fs.files)
    have hspec := remove_loop_spec noFaults (l.map F) fs []
      (by rw [hmf]; exact List.Nodup.sublist hsubl hnd)
      (by
        intro x hx
        rcases List.mem_map.mp hx with ⟨e, he, hFe⟩
        have hx1 : x.1 = e.1 := by rw [← hFe]
        rw [hx1]
        exact (lookup_meta_isSome_iff fs.files e.1).mpr
          (List.mem_map.mpr ⟨e, List.mem_of_mem_filter he, rfl⟩))
      (fun x _ => rfl)
    rw [hspec]
    refine Prod.ext ?_ ?_
    · refine congrArg FS.mk (List.filter_congr ?_)
      intro e he
      rw [hmf]
      by_cases hst : stale_entry now d e = true
      · have hin : e.1 ∈ l.map Prod.fst :=
          List.mem_map.mpr ⟨e, List.mem_filter.mpr ⟨he, hst⟩, rfl⟩
        simp [hin, hst]
      · have hnotin : e.1 ∉ l.map Prod.fst := by
          intro hin
          rcases List.mem_map.mp hin with ⟨e2, he2, hfst⟩
          rcases List.mem_filter.mp he2 with ⟨he2m, hst2⟩
          have h1 := mem_lookup_meta fs.files e2.1 e2.2 hnd (by simpa using he2m)
          have h2 := mem_lookup_meta fs.files e.1 e.2 hnd (by simpa using he)
          rw [hfst] at h1
          have hsnd : e2.2 = e.2 := Option.some_injective _ (h1.symm.trans h2)
          have he2e : e2 = e := Prod.ext hfst hsnd
          rw [he2e] at hst2
          exact hst hst2
        simp [hnotin, hst]
    · show ((l.map F).map Prod.snd).foldl add_key [] = _
      rw [List.map_map]
      have : (Prod.snd ∘ F) = fun e => (mk_info e).key := rfl
      rw [this]
  refine ⟨fun f fs now => rfl, ?_, hchar, ?_⟩
  · intro f fs d now hd
    unfold purge
    rw [age_phase_some, if_neg (not_lt.mpr hd), size_phase_none]
  · intro t1 t2 d now b1 b2 hb1 hb2 hd h1 h2
    rw [hchar ⟨[("a.pdf".toList, ⟨b1, t1, t1⟩), ("b.pdf".toList, ⟨b2, t2, t2⟩)]⟩ d now hd
      (by
        show (["a.pdf".toList, "b.pdf".toList] : List Name).Nodup
        decide)]
    have hv1 : valid_cache_name "a.pdf".toList := by decide
    have hs1 : stale_entry now d ("a.pdf".toList, ⟨b1, t1, t1⟩) = true := by
      have hlen : 0 < b1.length := List.length_pos.mpr hb1
      simp only [stale_entry]
      rw [decide_eq_true hv1, decide_eq_true hlen, decide_eq_true h1]
      rfl
    have hs2 : stale_entry now d ("b.pdf".toList, ⟨b2, t2, t2⟩) = false := by
      simp only [stale_entry]
      rw [decide_eq_false (not_lt.mpr (le_of_lt h2))]
      simp
    have hkey : ∀ m : FileMeta, (mk_info (("a.pdf".toList : Name), m)).key = ['a'] := by
      intro m
      show unsanitize_filename
        (("a.pdf".toList : Name).take ("a.pdf".toList.length - CACHE_SUFFIX.length)) = ['a']
      decide
    have hfA : ([("a.pdf".toList, (⟨b1, t1, t1⟩ : FileMeta)),
        ("b.pdf".toList, (⟨b2, t2, t2⟩ : FileMeta))]).filter
          (fun e => ! stale_entry now d e) = [("b.pdf".toList, ⟨b2, t2, t2⟩)] := by
      rw [List.filter_cons, if_neg (by rw [hs1]; decide), List.filter_cons,
        if_pos (by rw [hs2]; decide)]
      rfl
    have hfB : ([("a.pdf".toList, (⟨b1, t1, t1⟩ : FileMeta)),
        ("b.pdf".toList, (⟨b2, t2, t2⟩ : FileMeta))]).filter (stale_entry now d) =
          [("a.pdf".toList, ⟨b1, t1, t1⟩)] := by
      rw [List.filter_cons, if_pos hs1, List.filter_cons,
        if_neg (by rw [hs2]; exact Bool.false_ne_true)]
      rfl
    show (FS.mk _, _) = _
    rw [hfA, hfB]
    refine Prod.ext rfl ?_
    show List.foldl add_key []
        (List.map (fun e => (mk_info e).key)
          [(("a.pdf".toList : Name), (⟨b1, t1, t1⟩ : FileMeta))]) = [['a']]
    rw [List.map_cons, List.map_nil, hkey ⟨b1, t1, t1⟩]
    rfl

/-- Witness for C5: with access times 0 and 100 and cutoff 50, the age purge
removes exactly the older entry. -/
theorem c5_age_purge_witness :
    purge noFaults ⟨[("a.pdf".toList, ⟨[7], 0, 0⟩), ("b.pdf".toList, ⟨[8], 100, 100⟩)]⟩
        none (some 1) 86450 =
      (⟨[("b.pdf".toList, ⟨[8], 100, 100⟩)]⟩, [['a']]) :=
  c5_age_purge.2.2.2 0 100 1 86450 [7] [8] (by decide) (by decide) (by decide)
    (by decide) (by decide)

theorem filter_ne_cons_self (n : Name) (m : FileMeta) (rest : List (Name × FileMeta)) :
    ((n, m) :: rest).filter (fun e => decide (e.1 ≠ n)) =
      rest.filter (fun e => decide (e.1 ≠ n)) := by
  rw [List.filter_cons, if_neg]
  simp

theorem filter_ne_cons_of_ne (n n' : Name) (m : FileMeta) (rest : List (Name × FileMeta))
    (h : n' ≠ n) :
    ((n', m) :: rest).filter (fun e => decide (e.1 ≠ n)) =
      (n', m) :: rest.filter (fun e => decide (e.1 ≠ n)) := by
  rw [List.filter_cons, if_pos]
  simp [h]

/-- Claim C1: when the size phase is enabled and the scanned total strictly
exceeds the byte target, entries are processed in ascending access-time order
(the sorted scan), each successful removal decrements the running total by the
entry's size, and the loop stops as soon as the total is at or below the
target or the list is exhausted; in particular with three entries of sizes
`s1, s2, s3`, strictly increasing access times, and a byte target strictly
between `s2+s3` and `s1+s2+s3`, exactly the oldest entry is removed. -/
theorem c1_lru_size_purge :
    (∀ (f : Faults) (target : Int) (l : List CacheFileInfo) (fs : FS) (total : Int)
        (p : List Name), total ≤ target →
      size_purge_loop f target l fs total p = (fs, total, p)) ∧
    (∀ (f : Faults) (target : Int) (i : CacheFileInfo) (rest : List CacheFileInfo)
        (fs : FS) (total : Int) (p : List Name) (m : FileMeta),
      ¬ total ≤ target → fs.lookup i.path = some m → f.removeFails i.path = false →
      size_purge_loop f target (i :: rest) fs total p =
        size_purge_loop f target rest (fs.erase i.path) (total - (i.size : Int))
          (add_key p i.key)) ∧
    (∀ l : List CacheFileInfo,
      List.Pairwise (fun a b => a.access_time ≤ b.access_time) (sort_by_atime l)) ∧
    (∀ (s1 s2 s3 : Nat) (t1 t2 t3 B now : Int), 0 < s1 → 0 < s2 → 0 < s3 →
      t1 < t2 → t2 < t3 → (s2 : Int) + (s3 : Int) < B →
      B < (s1 : Int) + (s2 : Int) + (s3 : Int) →
      purge noFaults
          ⟨[("a.pdf".toList, ⟨List.replicate s1 0, t1, t1⟩),
            ("b.pdf".toList, ⟨List.replicate s2 0, t2, t2⟩),
            ("c.pdf".toList, ⟨List.replicate s3 0, t3, t3⟩)]⟩
          (some ((B : ℚ) / (BYTES_PER_MBYTE : ℚ))) none now =
        (⟨[("b.pdf".toList, ⟨List.replicate s2 0, t2, t2⟩),
            ("c.pdf".toList, ⟨List.replicate s3 0, t3, t3⟩)]⟩, [['a']])) := by
  refine ⟨size_purge_loop_stop, size_purge_loop_step, pairwise_sort_by_atime, ?_⟩
  intro s1 s2 s3 t1 t2 t3 B now hs1 hs2 hs3 ht12 ht23 hB1 hB2
  have hB0 : (0 : Int) ≤ B := le_trans (by positivity) (le_of_lt hB1)
  have hmb0 : (0 : ℚ) ≤ (B : ℚ) / (BYTES_PER_MBYTE : ℚ) := by
    apply div_nonneg
    · exact_mod_cast hB0
    · norm_num [BYTES_PER_MBYTE]
  have htarget : mb_to_bytes ((B : ℚ) / (BYTES_PER_MBYTE : ℚ)) = B := by
    unfold mb_to_bytes
    rw [rat_floor_eq_floor,
      div_mul_cancel₀ _ (by norm_num [BYTES_PER_MBYTE] : ((BYTES_PER_MBYTE : Int) : ℚ) ≠ 0),
      Int.floor_intCast]
  have hk1 : scan_keep (fun _ => false)
      ("a.pdf".toList, (⟨List.replicate s1 0, t1, t1⟩ : FileMeta)) = true := by
    simp only [scan_keep]
    rw [decide_eq_true (show valid_cache_name "a.pdf".toList by decide),
      decide_eq_true (show (0:Nat) < (List.replicate s1 (0:Nat)).length by
        rw [List.length_replicate]; exact hs1)]
    rfl
  have hk2 : scan_keep (fun _ => false)
      ("b.pdf".toList, (⟨List.replicate s2 0, t2, t2⟩ : FileMeta)) = true := by
    simp only [scan_keep]
    rw [decide_eq_true (show valid_cache_name "b.pdf".toList by decide),
      decide_eq_true (show (0:Nat) < (List.replicate s2 (0:Nat)).length by
        rw [List.length_replicate]; exact hs2)]
    rfl
  have hk3 : scan_keep (fun _ => false)
      ("c.pdf".toList, (⟨List.replicate s3 0, t3, t3⟩ : FileMeta)) = true := by
    simp only [scan_keep]
    rw [decide_eq_true (show valid_cache_name "c.pdf".toList by decide),
      decide_eq_true (show (0:Nat) < (List.replicate s3 (0:Nat)).length by
        rw [List.length_replicate]; exact hs3)]
    rfl
  have hfil : ([("a.pdf".toList, (⟨List.replicate s1 0, t1, t1⟩ : FileMeta)),
      ("b.pdf".toList, ⟨List.replicate s2 0, t2, t2⟩),
      ("c.pdf".toList, ⟨List.replicate s3 0, t3, t3⟩)]).filter
        (scan_keep (fun _ => false)) =
      [("a.pdf".toList, ⟨List.replicate s1 0, t1, t1⟩),
        ("b.pdf".toList, ⟨List.replicate s2 0, t2, t2⟩),
        ("c.pdf".toList, ⟨List.replicate s3 0, t3, t3⟩)] := by
    rw [List.filter_cons, if_pos hk1, List.filter_cons, if_pos hk2,
      List.filter_cons, if_pos hk3]
    rfl
  have hgci : get_cache_files_info noFaults
      ⟨[("a.pdf".toList, ⟨List.replicate s1 0, t1, t1⟩),
        ("b.pdf".toList, ⟨List.replicate s2 0, t2, t2⟩),
        ("c.pdf".toList, ⟨List.replicate s3 0, t3, t3⟩)]⟩ =
      ([mk_info ("a.pdf".toList, ⟨List.replicate s1 0, t1, t1⟩),
        mk_info ("b.pdf".toList, ⟨List.replicate s2 0, t2, t2⟩),
        mk_info ("c.pdf".toList, ⟨List.replicate s3 0, t3, t3⟩)],
        (s1 : Int) + ((s2 : Int) + ((s3 : Int) + 0))) := by
    rw [gci_noFaults, scan_files_eq, hfil]
    simp only [List.map_cons, List.map_nil, List.sum_cons, List.sum_nil,
      List.length_replicate]
  have hpw : List.Pairwise (fun a b => a.access_time ≤ b.access_time)
      [mk_info ("a.pdf".toList, (⟨List.replicate s1 0, t1, t1⟩ : FileMeta)),
        mk_info ("b.pdf".toList, ⟨List.replicate s2 0, t2, t2⟩),
        mk_info ("c.pdf".toList, ⟨List.replicate s3 0, t3, t3⟩)] := by
    refine List.Pairwise.cons ?_ (List.Pairwise.cons ?_
      (List.Pairwise.cons ?_ List.Pairwise.nil))
    · intro b hb
      rcases List.mem_cons.mp hb with h | h
      · rw [h]
        exact le_of_lt ht12
      · rcases List.mem_cons.mp h with h2 | h2
        · rw [h2]
          exact le_of_lt (lt_trans ht12 ht23)
        · exact absurd h2 (List.not_mem_nil b)
    · intro b hb
      rcases List.mem_cons.mp hb with h | h
      · rw [h]
        exact le_of_lt ht23
      · exact absurd h (List.not_mem_nil b)
    · intro b hb
      exact absurd hb (List.not_mem_nil b)
  have hsorted := sort_by_atime_of_sorted _ hpw
  have htot_gt : ¬ ((s1 : Int) + ((s2 : Int) + ((s3 : Int) + 0)) ≤ B) := by
    intro hle
    omega
  have hsz1 : (mk_info ("a.pdf".toList,
      (⟨List.replicate s1 0, t1, t1⟩ : FileMeta))).size = s1 := by
    show (List.replicate s1 (0:Nat)).length = s1
    exact List.length_replicate s1 0
  have hstop : ((s1 : Int) + ((s2 : Int) + ((s3 : Int) + 0))) -
      ((mk_info ("a.pdf".toList,
        (⟨List.replicate s1 0, t1, t1⟩ : FileMeta))).size : Int) ≤ B := by
    rw [hsz1]
    omega
  have hlook1 : (⟨[("a.pdf".toList, ⟨List.replicate s1 0, t1, t1⟩),
      ("b.pdf".toList, ⟨List.replicate s2 0, t2, t2⟩),
      ("c.pdf".toList, ⟨List.replicate s3 0, t3, t3⟩)]⟩ : FS).lookup
        (mk_info ("a.pdf".toList,
          (⟨List.replicate s1 0, t1, t1⟩ : FileMeta))).path =
      some ⟨List.replicate s1 0, t1, t1⟩ := rfl
  have hpath1 : (mk_info ("a.pdf".toList,
      (⟨List.replicate s1 0, t1, t1⟩ : FileMeta))).path = "a.pdf".toList := rfl
  have hkey1 : (mk_info ("a.pdf".toList,
      (⟨List.replicate s1 0, t1, t1⟩ : FileMeta))).key = ['a'] := by
    show unsanitize_filename
      (("a.pdf".toList : Name).take ("a.pdf".toList.length - CACHE_SUFFIX.length)) = ['a']
    decide
  unfold purge
  rw [age_phase_none, size_phase_some, if_pos hmb0]
  unfold size_purge
  rw [htarget, hgci, if_neg htot_gt, hsorted]
  rw [size_purge_loop_step noFaults B _ _ _ _ _ ⟨List.replicate s1 0, t1, t1⟩
    htot_gt hlook1 rfl]
  rw [size_purge_loop_stop _ _ _ _ _ _ hstop]
  show ((⟨[("a.pdf".toList, ⟨List.replicate s1 0, t1, t1⟩),
      ("b.pdf".toList, ⟨List.replicate s2 0, t2, t2⟩),
      ("c.pdf".toList, ⟨List.replicate s3 0, t3, t3⟩)]⟩ : FS).erase
        (mk_info ("a.pdf".toList,
          (⟨List.replicate s1 0, t1, t1⟩ : FileMeta))).path,
      add_key [] (mk_info ("a.pdf".toList,
        (⟨List.replicate s1 0, t1, t1⟩ : FileMeta))).key) = _
  rw [hpath1, hkey1]
  refine Prod.ext ?_ rfl
  show FS.mk _ = FS.mk _
  refine congrArg FS.mk ?_
  rw [filter_ne_cons_self, filter_ne_cons_of_ne _ _ _ _ (by decide),
    filter_ne_cons_of_ne _ _ _ _ (by decide)]
  rfl

/-- Witness for C1 with sizes 3, 1, 1, access times 1 < 2 < 3 and byte
target 3. -/
theorem c1_lru_size_purge_witness :
    purge noFaults
        ⟨[("a.pdf".toList, ⟨List.replicate 3 0, 1, 1⟩),
          ("b.pdf".toList, ⟨List.replicate 1 0, 2, 2⟩),
          ("c.pdf".toList, ⟨List.replicate 1 0, 3, 3⟩)]⟩
        (some (((3 : Int) : ℚ) / (BYTES_PER_MBYTE : ℚ))) none 0 =
      (⟨[("b.pdf".toList, ⟨List.replicate 1 0, 2, 2⟩),
          ("c.pdf".toList, ⟨List.replicate 1 0, 3, 3⟩)]⟩, [['a']]) :=
  c1_lru_size_purge.2.2.2 3 1 1 1 2 3 3 0 (by decide) (by decide) (by decide)
    (by decide) (by decide) (by decide) (by decide)

end PdfCache
